import Mathlib

/-!
Verification of the `lobe-model-converter` scripts.

The development shallowly embeds the pure decision logic of the repository:

* `converter/compatibility.py`: the recursive dependency walk
  `tensor_dependency` over a TensorFlow graph, and the pruning /
  reshaping / freezing driver `strip_incompatible_ops_dtypes`.
* `converter/load.py`: the SavedModel loader `load_savedmodel`.
* `uploader/azure_percept.py`: config creation, zip packaging, blob
  upload and module-twin update.

External systems (TensorFlow, the filesystem, the Azure SDKs) appear as
explicit parameters or as effect descriptions: the embeddings record
exactly the arguments the scripts hand to those systems.
-/

namespace LobeConverter

/-- ASCII lowercasing of a string, modelling Python `str.lower()` as used on
op-type and dtype names (which are ASCII). -/
def lowerStr (s : String) : String :=
  String.mk (s.data.map Char.toLower)

/-- Model of Python `name.split(':')[0]`: the prefix of a tensor name before
the first colon (the whole string when there is no colon). -/
def splitColonHead (s : String) : String :=
  String.mk (s.data.takeWhile (fun c => c ≠ ':'))

/-- A TensorFlow operation as seen by `tensor_dependency`: its `type` string
and the names of its input tensors (`tensor.op.type`, `tensor.op.inputs`). -/
structure TFOp where
  type : String
  inputs : List String
deriving DecidableEq, Repr

/-- A TensorFlow tensor as seen by `compatibility.py`: its dtype name
(`tensor.dtype.name`), the operation producing it (`tensor.op`) and its
static shape (`tensor.shape.as_list()`, `None` entries becoming `none`). -/
structure TFTensor where
  dtypeName : String
  op : TFOp
  shape : List (Option Nat)
deriving DecidableEq, Repr

/-- A TensorFlow graph: a finite association of tensor names to tensors. -/
abbrev TFGraph := List (String × TFTensor)

/-- Model of `graph.get_tensor_by_name(name)`; `none` models the lookup
error raised when the name is absent. -/
def get_tensor_by_name (graph : TFGraph) (name : String) : Option TFTensor :=
  List.lookup name graph

/-- Short-circuiting `any` over a fallible dependency test: the embedding of
the `for op_input in tensor.op.inputs: if tensor_dependency(...): return True`
loop, with `none` propagating a failure of the recursive call. -/
def anyTensorDep (f : String → Option Bool) : List String → Option Bool
  | [] => some false
  | n :: rest =>
    match f n with
    | none => none
    | some true => some true
    | some false => anyTensorDep f rest

/-- The recursive dependency walk `tensor_dependency` of
`converter/compatibility.py`.  The Python function recurses without a bound,
so the embedding takes explicit `fuel`; `none` means the fuel was exhausted
(or a tensor name was missing), and never occurs for enough fuel on a
well-formed acyclic graph (`tensor_dependency_terminates`). -/
def tensor_dependency (graph : TFGraph) (ops dtypes : List String) :
    Nat → String → Option Bool
  | 0, _ => none
  | fuel + 1, name =>
    match get_tensor_by_name graph name with
    | none => none
    | some t =>
      if lowerStr t.dtypeName ∈ dtypes ∨ lowerStr t.op.type ∈ ops then some true
      else anyTensorDep (fun n => tensor_dependency graph ops dtypes fuel n) t.op.inputs

/-- The transitive input closure test that `tensor_dependency` is supposed to
decide: some tensor reachable from `name` through producing-op inputs has a
(lowercased) dtype name in `dtypes` or a (lowercased) op type in `ops`. -/
inductive Depends (graph : TFGraph) (ops dtypes : List String) : String → Prop where
  | here (name : String) (t : TFTensor) :
      get_tensor_by_name graph name = some t →
      (lowerStr t.dtypeName ∈ dtypes ∨ lowerStr t.op.type ∈ ops) →
      Depends graph ops dtypes name
  | input (name : String) (t : TFTensor) (n : String) :
      get_tensor_by_name graph name = some t →
      n ∈ t.op.inputs →
      Depends graph ops dtypes n →
      Depends graph ops dtypes name

/-- A rank function witnessing acyclicity of the graph: every input of a
tensor's producing op has strictly smaller rank. -/
def RankOk (graph : TFGraph) (rank : String → Nat) : Prop :=
  ∀ p ∈ graph, ∀ n ∈ p.2.op.inputs, rank n < rank p.1

/-- The graph is closed under op inputs: every input name of a present
tensor's producing op is itself present in the graph. -/
def ClosedGraph (graph : TFGraph) : Prop :=
  ∀ p ∈ graph, ∀ n ∈ p.2.op.inputs, (get_tensor_by_name graph n).isSome

theorem mem_of_lookup_eq_some {α : Type} {l : List (String × α)} {k : String} {v : α}
    (h : List.lookup k l = some v) : (k, v) ∈ l := by
  induction l with
  | nil => simp [List.lookup] at h
  | cons p rest ih =>
    obtain ⟨k', v'⟩ := p
    rw [List.lookup] at h
    by_cases hk : k = k'
    · subst hk
      simp at h
      subst h
      exact List.mem_cons_self _ _
    · have : (k == k') = false := by simp [hk]
      rw [this] at h
      simp at h
      exact List.mem_cons_of_mem _ (ih h)

theorem anyTensorDep_isSome {f : String → Option Bool} {ns : List String}
    (h : ∀ n ∈ ns, (f n).isSome) : (anyTensorDep f ns).isSome := by
  induction ns with
  | nil => simp [anyTensorDep]
  | cons n rest ih =>
    have hn := h n (List.mem_cons_self _ _)
    rw [anyTensorDep]
    cases hfn : f n with
    | none => rw [hfn] at hn; simp at hn
    | some b =>
      cases b
      · exact ih (fun m hm => h m (List.mem_cons_of_mem _ hm))
      · simp

theorem anyTensorDep_eq_true {f : String → Option Bool} {ns : List String}
    (h : anyTensorDep f ns = some true) : ∃ n ∈ ns, f n = some true := by
  induction ns with
  | nil => simp [anyTensorDep] at h
  | cons n rest ih =>
    rw [anyTensorDep] at h
    cases hfn : f n with
    | none => rw [hfn] at h; simp at h
    | some b =>
      cases b
      · rw [hfn] at h
        obtain ⟨m, hm, hfm⟩ := ih h
        exact ⟨m, List.mem_cons_of_mem _ hm, hfm⟩
      · exact ⟨n, List.mem_cons_self _ _, hfn⟩

theorem anyTensorDep_of_mem {f : String → Option Bool} {ns : List String} {n : String}
    (hall : ∀ m ∈ ns, (f m).isSome) (hn : n ∈ ns) (ht : f n = some true) :
    anyTensorDep f ns = some true := by
  induction ns with
  | nil => cases hn
  | cons m rest ih =>
    rw [anyTensorDep]
    rcases List.mem_cons.mp hn with h | h
    · subst h
      rw [ht]
    · have hm := hall m (List.mem_cons_self _ _)
      cases hfm : f m with
      | none => rw [hfm] at hm; simp at hm
      | some b =>
        cases b
        · exact ih (fun x hx => hall x (List.mem_cons_of_mem _ hx)) h
        · rfl

/-- Totality of the walk on closed, acyclic graphs: with fuel above the rank
of the start tensor, `tensor_dependency` returns a result. -/
theorem tensor_dependency_total (graph : TFGraph) (ops dtypes : List String)
    (rank : String → Nat) (hrank : RankOk graph rank) (hclosed : ClosedGraph graph) :
    ∀ fuel name, (get_tensor_by_name graph name).isSome → rank name < fuel →
      (tensor_dependency graph ops dtypes fuel name).isSome := by
  intro fuel
  induction fuel with
  | zero => intro name _ h; exact absurd h (Nat.not_lt_zero _)
  | succ fuel ih =>
    intro name hname hfuel
    obtain ⟨t, ht⟩ := Option.isSome_iff_exists.mp hname
    rw [tensor_dependency, ht]
    dsimp only
    by_cases hhit : lowerStr t.dtypeName ∈ dtypes ∨ lowerStr t.op.type ∈ ops
    · rw [if_pos hhit]; rfl
    · rw [if_neg hhit]
      have hmem : (name, t) ∈ graph := mem_of_lookup_eq_some ht
      refine anyTensorDep_isSome (fun n hn => ih n ?_ ?_)
      · exact hclosed (name, t) hmem n hn
      · have h1 : rank n < rank name := hrank (name, t) hmem n hn
        omega

/-- Soundness of the walk: a `some true` answer exhibits a dependency in the
transitive input closure. -/
theorem tensor_dependency_sound (graph : TFGraph) (ops dtypes : List String) :
    ∀ fuel name, tensor_dependency graph ops dtypes fuel name = some true →
      Depends graph ops dtypes name := by
  intro fuel
  induction fuel with
  | zero => intro name h; rw [tensor_dependency] at h; cases h
  | succ fuel ih =>
    intro name h
    rw [tensor_dependency] at h
    cases ht : get_tensor_by_name graph name with
    | none => rw [ht] at h; cases h
    | some t =>
      rw [ht] at h
      dsimp only at h
      by_cases hhit : lowerStr t.dtypeName ∈ dtypes ∨ lowerStr t.op.type ∈ ops
      · exact Depends.here name t ht hhit
      · rw [if_neg hhit] at h
        obtain ⟨n, hn, hfn⟩ := anyTensorDep_eq_true h
        exact Depends.input name t n ht hn (ih n hfn)

/-- Completeness of the walk on closed, acyclic graphs: every dependency in
the closure is found, given fuel above the rank of the start tensor. -/
theorem tensor_dependency_complete (graph : TFGraph) (ops dtypes : List String)
    (rank : String → Nat) (hrank : RankOk graph rank) (hclosed : ClosedGraph graph) :
    ∀ name, Depends graph ops dtypes name →
      ∀ fuel, rank name < fuel →
        tensor_dependency graph ops dtypes fuel name = some true := by
  intro name hdep
  induction hdep with
  | here name t ht hhit =>
    intro fuel hf
    match fuel with
    | 0 => exact absurd hf (Nat.not_lt_zero _)
    | fuel + 1 => rw [tensor_dependency, ht]; dsimp only; rw [if_pos hhit]
  | input name t n ht hn _ ih =>
    intro fuel hf
    match fuel with
    | 0 => exact absurd hf (Nat.not_lt_zero _)
    | fuel + 1 =>
      rw [tensor_dependency, ht]
      dsimp only
      by_cases hhit : lowerStr t.dtypeName ∈ dtypes ∨ lowerStr t.op.type ∈ ops
      · rw [if_pos hhit]
      · rw [if_neg hhit]
        have hmem : (name, t) ∈ graph := mem_of_lookup_eq_some ht
        have hrn : rank n < rank name := hrank (name, t) hmem n hn
        refine anyTensorDep_of_mem (fun m hm => ?_) hn (ih fuel (by omega))
        have h1 : rank m < rank name := hrank (name, t) hmem m hm
        exact tensor_dependency_total graph ops dtypes rank hrank hclosed fuel m
          (hclosed (name, t) hmem m hm) (by omega)

/-- A small concrete graph used to instantiate hypotheses: a float `Softmax`
output whose producing op reads a string `Const` tensor. -/
def gExample : TFGraph :=
  [("out:0", ⟨"float32", ⟨"Softmax", ["s:0"]⟩, [none, some 1]⟩),
   ("s:0", ⟨"string", ⟨"Const", []⟩, []⟩)]

/-- A rank function showing `gExample` is acyclic. -/
def rankExample : String → Nat :=
  fun n => if n = "s:0" then 0 else 1

/-- C1: `tensor_dependency` returns `True` exactly when some tensor in the
transitive input closure of the named tensor has a lowercased dtype name in
the dtype list or a lowercased producing-op type in the op list.  Acyclicity
is witnessed by a rank function, the graph is closed under op inputs, and
the fuel exceeds the rank of the start tensor. -/
theorem tensor_dependency_iff_depends (graph : TFGraph) (ops dtypes : List String)
    (rank : String → Nat) (hrank : RankOk graph rank) (hclosed : ClosedGraph graph)
    (name : String) (hname : (get_tensor_by_name graph name).isSome)
    (fuel : Nat) (hfuel : rank name < fuel) :
    tensor_dependency graph ops dtypes fuel name = some true ↔
      Depends graph ops dtypes name :=
  ⟨tensor_dependency_sound graph ops dtypes fuel name,
   fun h => tensor_dependency_complete graph ops dtypes rank hrank hclosed name h fuel hfuel⟩

/-- Witness for C1 on the concrete graph `gExample`. -/
theorem tensor_dependency_iff_depends_witness :
    tensor_dependency gExample [] ["string"] 2 "out:0" = some true ↔
      Depends gExample [] ["string"] "out:0" :=
  tensor_dependency_iff_depends gExample [] ["string"] rankExample
    (by unfold RankOk; decide) (by unfold ClosedGraph; decide) "out:0" (by decide) 2 (by decide)

/-- C5: the recursive walk terminates on every finite acyclic computation
graph that is closed under op inputs: `tensor_dependency` returns a result
(never runs out of fuel) once the fuel exceeds the rank of the start
tensor, so the walk is a total function on such graphs. -/
theorem tensor_dependency_terminates (graph : TFGraph) (ops dtypes : List String)
    (rank : String → Nat) (hrank : RankOk graph rank) (hclosed : ClosedGraph graph)
    (name : String) (hname : (get_tensor_by_name graph name).isSome)
    (fuel : Nat) (hfuel : rank name < fuel) :
    (tensor_dependency graph ops dtypes fuel name).isSome :=
  tensor_dependency_total graph ops dtypes rank hrank hclosed fuel name hname hfuel

/-- Witness for C5 on the concrete graph `gExample`. -/
theorem tensor_dependency_terminates_witness :
    (tensor_dependency gExample ["relu"] [] 5 "out:0").isSome :=
  tensor_dependency_terminates gExample ["relu"] [] rankExample
    (by unfold RankOk; decide) (by unfold ClosedGraph; decide) "out:0" (by decide) 5 (by decide)

/-- One entry of the Lobe `signature.json` `outputs` map: the tensor `name`,
the declared `dtype`, and the declared `shape`. -/
structure OutputInfo where
  name : String
  dtype : String
  shape : List (Option Nat)
deriving DecidableEq, Repr

/-- The parts of the Lobe signature that `strip_incompatible_ops_dtypes`
reads: the `outputs` map (insertion-ordered, as a Python dict), the
`classes.Label` list, and the SavedModel `tags`. -/
structure LobeSignature where
  outputs : List (String × OutputInfo)
  labels : List String
  tags : List String
deriving DecidableEq, Repr

/-- Python dict assignment `d[k] = v` on an insertion-ordered association
list: replace the value of an existing key in place, else append. -/
def updateAssoc {α : Type} : List (String × α) → String → α → List (String × α)
  | [], k, v => [(k, v)]
  | p :: rest, k, v =>
    if p.1 = k then (k, v) :: rest else p :: updateAssoc rest k v

/-- The loop state of `strip_incompatible_ops_dtypes`:
`pruned_out_tensor_names`, `pruned_out_shapes`, and the `new_outs` flag. -/
structure StripAcc where
  pruned : List (String × String)
  shapes : List (String × List (Option Nat))
  newOuts : Bool
deriving DecidableEq, Repr

/-- The dict comprehension building `out_tensor_names`: signature outputs
whose declared dtype (lowercased) is not in the (already lowercased)
`dtypes` prune list, mapped to their tensor names. -/
def consideredOutputs (sig : LobeSignature) (dtypes : List String) :
    List (String × String) :=
  sig.outputs.filterMap (fun p =>
    if lowerStr p.2.dtype ∈ dtypes then none else some (p.1, p.2.name))

/-- One iteration body of the `for key, tensor_name in out_tensor_names`
loop of `strip_incompatible_ops_dtypes`, given the walk's verdict `dep` and
the tensor `t` found for `tname`: a surviving output is recorded when the
walk said `False`; independently, when `reshape_for_percept` is set and the
tensor's shape is `[None, len(classes.Label)]`, the output is (re)assigned
to a fresh reshaped tensor of shape `[None, 1, 1, n]` whose name is
produced by TensorFlow (`freshName`). -/
def stripStep (nLabels : Nat) (reshape : Bool) (freshName : String → String)
    (key tname : String) (dep : Bool) (t : TFTensor) (acc : StripAcc) : StripAcc :=
  let acc1 : StripAcc :=
    if dep = false then { acc with pruned := updateAssoc acc.pruned key tname }
    else acc
  if t.shape = [none, some nLabels] ∧ reshape = true then
    { pruned := updateAssoc acc1.pruned key (freshName tname),
      shapes := updateAssoc acc1.shapes key
        [none, some 1, some 1, t.shape.getLastD none],
      newOuts := true }
  else acc1

/-- The `for key, tensor_name in out_tensor_names.items()` loop of
`strip_incompatible_ops_dtypes`.  `none` propagates a failed walk (fuel
exhausted) or a missing tensor name. -/
def stripLoop (graph : TFGraph) (nLabels : Nat) (ops dtypes : List String)
    (reshape : Bool) (freshName : String → String) (fuel : Nat) :
    List (String × String) → StripAcc → Option StripAcc
  | [], acc => some acc
  | (key, tname) :: rest, acc =>
    match tensor_dependency graph ops dtypes fuel tname with
    | none => none
    | some dep =>
      match get_tensor_by_name graph tname with
      | none => none
      | some t =>
        stripLoop graph nLabels ops dtypes reshape freshName fuel rest
          (stripStep nLabels reshape freshName key tname dep t acc)

/-- The externally visible actions of `strip_incompatible_ops_dtypes`, in
order: saving the temporary reshaped SavedModel, calling `freeze_graph`
with the surviving output node names (joined with commas in Python), writing
`signature_frozen_graph.json` with the updated `outputs` map, and removing
the temporary SavedModel directory. -/
inductive StripEffect where
  | saveReshapedModel : StripEffect
  | freezeGraph (outputNodeNames : List String) : StripEffect
  | writeSignature (outputs : List (String × OutputInfo)) : StripEffect
  | removeTempModel : StripEffect
deriving DecidableEq, Repr

/-- The `outputs` map written to `signature_frozen_graph.json`: keys not in
`pruned_out_tensor_names` are deleted; if `new_outs` and the key is in
`pruned_out_shapes`, the entry's shape and name are updated to the
reshaped tensor's. -/
def writtenOutputs (sig : LobeSignature) (acc : StripAcc) :
    List (String × OutputInfo) :=
  sig.outputs.filterMap (fun p =>
    if (List.lookup p.1 acc.pruned).isNone then none
    else if acc.newOuts = true ∧ (List.lookup p.1 acc.shapes).isSome then
      some (p.1, { p.2 with
        shape := (List.lookup p.1 acc.shapes).getD p.2.shape,
        name := (List.lookup p.1 acc.pruned).getD p.2.name })
    else some p)

/-- The driver `strip_incompatible_ops_dtypes` of `converter/compatibility.py`
as the list of external effects it performs.  `ops?`/`dtypes?` carry the
Python `None` defaults; both lists are lowercased on entry.  The two early
returns (`no compatible outputs`) produce an empty effect list: no
`freeze_graph` call and no file written.  `freshName` stands for
TensorFlow's naming of the `tf.reshape` result, `fuel` bounds the recursive
walk, and the loaded `graph`/`sig` stand for the result of
`load_savedmodel`. -/
def strip_incompatible_ops_dtypes (graph : TFGraph) (sig : LobeSignature)
    (ops? dtypes? : Option (List String)) (reshape_for_percept : Bool)
    (freshName : String → String) (fuel : Nat) : Option (List StripEffect) :=
  let ops := (ops?.getD []).map lowerStr
  let dtypes := (dtypes?.getD []).map lowerStr
  let out_tensor_names := consideredOutputs sig dtypes
  if out_tensor_names.length = 0 then some []
  else
    match stripLoop graph sig.labels.length ops dtypes reshape_for_percept
        freshName fuel out_tensor_names ⟨[], [], false⟩ with
    | none => none
    | some acc =>
      if acc.pruned.length = 0 then some []
      else
        some ((if acc.newOuts then [StripEffect.saveReshapedModel] else []) ++
          [StripEffect.freezeGraph (acc.pruned.map (fun p => splitColonHead p.2)),
           StripEffect.writeSignature (writtenOutputs sig acc)] ++
          (if acc.newOuts then [StripEffect.removeTempModel] else []))

theorem lookup_updateAssoc_self {α : Type} (l : List (String × α)) (k : String) (v : α) :
    List.lookup k (updateAssoc l k v) = some v := by
  induction l with
  | nil => simp [updateAssoc, List.lookup]
  | cons p rest ih =>
    obtain ⟨k0, v0⟩ := p
    rw [updateAssoc]
    by_cases hp : k0 = k
    · rw [if_pos hp]
      simp [List.lookup]
    · rw [if_neg hp]
      have hbeq : (k == k0) = false := beq_eq_false_iff_ne.mpr (fun h => hp h.symm)
      simp [List.lookup, hbeq, ih]

theorem lookup_updateAssoc_ne {α : Type} (l : List (String × α)) {k k' : String} (v : α)
    (hne : k' ≠ k) : List.lookup k (updateAssoc l k' v) = List.lookup k l := by
  have hbeq : (k == k') = false := beq_eq_false_iff_ne.mpr (fun h => hne h.symm)
  induction l with
  | nil => simp [updateAssoc, List.lookup, hbeq]
  | cons p rest ih =>
    obtain ⟨k0, v0⟩ := p
    rw [updateAssoc]
    by_cases hp : k0 = k'
    · rw [if_pos hp]
      subst hp
      simp [List.lookup, hbeq]
    · rw [if_neg hp]
      by_cases hk0 : k = k0
      · subst hk0
        simp [List.lookup]
      · have hb0 : (k == k0) = false := beq_eq_false_iff_ne.mpr hk0
        simp [List.lookup, hb0, ih]

theorem stripStep_lookup_ne (nLabels : Nat) (reshape : Bool)
    (freshName : String → String) (key tname : String) (dep : Bool) (t : TFTensor)
    (acc : StripAcc) {k : String} (hne : key ≠ k) :
    List.lookup k (stripStep nLabels reshape freshName key tname dep t acc).pruned =
      List.lookup k acc.pruned ∧
    List.lookup k (stripStep nLabels reshape freshName key tname dep t acc).shapes =
      List.lookup k acc.shapes ∧
    (acc.newOuts = true →
      (stripStep nLabels reshape freshName key tname dep t acc).newOuts = true) := by
  by_cases hg : t.shape = [none, some nLabels] ∧ reshape = true <;>
    by_cases hd : dep = false <;>
    simp [stripStep, hg, hd, lookup_updateAssoc_ne _ _ hne]

theorem stripLoop_preserves (graph : TFGraph) (nLabels : Nat) (ops dtypes : List String)
    (reshape : Bool) (freshName : String → String) (fuel : Nat) (key : String) :
    ∀ (l : List (String × String)) (acc acc' : StripAcc),
      (∀ p ∈ l, p.1 ≠ key) →
      stripLoop graph nLabels ops dtypes reshape freshName fuel l acc = some acc' →
      List.lookup key acc'.pruned = List.lookup key acc.pruned ∧
      List.lookup key acc'.shapes = List.lookup key acc.shapes ∧
      (acc.newOuts = true → acc'.newOuts = true) := by
  intro l
  induction l with
  | nil =>
    intro acc acc' _ h
    rw [stripLoop] at h
    cases h
    exact ⟨rfl, rfl, fun h => h⟩
  | cons p rest ih =>
    intro acc acc' hne h
    obtain ⟨k0, tn0⟩ := p
    rw [stripLoop] at h
    cases hdep : tensor_dependency graph ops dtypes fuel tn0 with
    | none => rw [hdep] at h; cases h
    | some dep =>
      rw [hdep] at h
      dsimp only at h
      cases hget : get_tensor_by_name graph tn0 with
      | none => rw [hget] at h; cases h
      | some t =>
        rw [hget] at h
        dsimp only at h
        have hk0 : k0 ≠ key := hne (k0, tn0) (List.mem_cons_self _ _)
        obtain ⟨h1, h2, h3⟩ := ih _ acc' (fun q hq => hne q (List.mem_cons_of_mem _ hq)) h
        obtain ⟨s1, s2, s3⟩ :=
          stripStep_lookup_ne nLabels reshape freshName k0 tn0 dep t acc hk0
        exact ⟨h1.trans s1, h2.trans s2, fun hn => h3 (s3 hn)⟩

theorem filterMap_keys_sublist {α β : Type} (f : String × α → Option (String × β))
    (hf : ∀ p q, f p = some q → q.1 = p.1) :
    ∀ l : List (String × α),
      List.Sublist ((l.filterMap f).map Prod.fst) (l.map Prod.fst) := by
  intro l
  induction l with
  | nil => simp
  | cons p rest ih =>
    rw [List.filterMap_cons]
    cases hfp : f p with
    | none => exact List.Sublist.cons p.1 ih
    | some q =>
      rw [List.map_cons, List.map_cons, hf p q hfp]
      exact List.Sublist.cons₂ p.1 ih

theorem consideredOutputs_keys_nodup (sig : LobeSignature) (dtypes : List String)
    (hkeys : (sig.outputs.map Prod.fst).Nodup) :
    ((consideredOutputs sig dtypes).map Prod.fst).Nodup := by
  refine List.Nodup.sublist ?_ hkeys
  rw [consideredOutputs]
  refine filterMap_keys_sublist _ (fun p q h => ?_) sig.outputs
  by_cases hp : lowerStr p.2.dtype ∈ dtypes
  · rw [if_pos hp] at h; cases h
  · rw [if_neg hp] at h; cases h; rfl

theorem stripStep_dep_no_reshape (nLabels : Nat) (reshape : Bool)
    (freshName : String → String) (key tname : String) (t : TFTensor) (acc : StripAcc)
    (hg : ¬(t.shape = [none, some nLabels] ∧ reshape = true)) :
    stripStep nLabels reshape freshName key tname true t acc = acc := by
  simp [stripStep, hg]

theorem stripStep_keep_plain (nLabels : Nat) (reshape : Bool)
    (freshName : String → String) (key tname : String) (t : TFTensor) (acc : StripAcc)
    (hg : ¬(t.shape = [none, some nLabels] ∧ reshape = true)) :
    stripStep nLabels reshape freshName key tname false t acc =
      { acc with pruned := updateAssoc acc.pruned key tname } := by
  simp [stripStep, hg]

theorem stripStep_reshape_self (nLabels : Nat) (freshName : String → String)
    (key tname : String) (dep : Bool) (t : TFTensor) (acc : StripAcc)
    (hg : t.shape = [none, some nLabels]) :
    List.lookup key (stripStep nLabels true freshName key tname dep t acc).pruned =
      some (freshName tname) ∧
    List.lookup key (stripStep nLabels true freshName key tname dep t acc).shapes =
      some [none, some 1, some 1, t.shape.getLastD none] ∧
    (stripStep nLabels true freshName key tname dep t acc).newOuts = true := by
  simp [stripStep, hg, lookup_updateAssoc_self]

theorem key_ne_head_of_mem_tail {α : Type} {k0 : String} {key : String}
    {rest : List (String × α)} (hnd : k0 ∉ rest.map Prod.fst)
    (hmem : key ∈ rest.map Prod.fst) : k0 ≠ key := by
  intro h
  exact hnd (h ▸ hmem)

/-- An output whose walk verdict is `True` and which the reshape branch does
not touch never enters `pruned_out_tensor_names`. -/
theorem stripLoop_dep_not_kept (graph : TFGraph) (nLabels : Nat)
    (ops dtypes : List String) (reshape : Bool) (freshName : String → String)
    (fuel : Nat) (key tname : String)
    (hdep : tensor_dependency graph ops dtypes fuel tname = some true)
    (hguard : ∀ t, get_tensor_by_name graph tname = some t →
      ¬(t.shape = [none, some nLabels] ∧ reshape = true)) :
    ∀ (l : List (String × String)) (acc acc' : StripAcc),
      (l.map Prod.fst).Nodup →
      (key, tname) ∈ l →
      List.lookup key acc.pruned = none →
      stripLoop graph nLabels ops dtypes reshape freshName fuel l acc = some acc' →
      List.lookup key acc'.pruned = none := by
  intro l
  induction l with
  | nil => intro acc acc' _ hmem; cases hmem
  | cons p rest ih =>
    intro acc acc' hnd hmem hnone h
    obtain ⟨k0, tn0⟩ := p
    rw [stripLoop] at h
    rw [List.map_cons, List.nodup_cons] at hnd
    rcases List.mem_cons.mp hmem with heq | hmem'
    · obtain ⟨hk, ht'⟩ := Prod.mk.injEq key tname k0 tn0 ▸ heq
      subst hk
      subst ht'
      rw [hdep] at h
      dsimp only at h
      cases hget : get_tensor_by_name graph tname with
      | none => rw [hget] at h; cases h
      | some t =>
        rw [hget] at h
        dsimp only at h
        rw [stripStep_dep_no_reshape _ _ _ _ _ _ _ (hguard t hget)] at h
        obtain ⟨h1, _, _⟩ := stripLoop_preserves graph nLabels ops dtypes reshape
          freshName fuel key rest acc acc'
          (fun q hq hq1 => hnd.1 (by rw [← hq1]; exact List.mem_map.mpr ⟨q, hq, rfl⟩)) h
        rw [h1]
        exact hnone
    · have hkmem : key ∈ rest.map Prod.fst := by
        have := List.mem_map_of_mem Prod.fst hmem'
        exact this
      have hk0 : k0 ≠ key := key_ne_head_of_mem_tail hnd.1 hkmem
      cases hdep0 : tensor_dependency graph ops dtypes fuel tn0 with
      | none => rw [hdep0] at h; cases h
      | some dep =>
        rw [hdep0] at h
        dsimp only at h
        cases hget0 : get_tensor_by_name graph tn0 with
        | none => rw [hget0] at h; cases h
        | some t0 =>
          rw [hget0] at h
          dsimp only at h
          obtain ⟨s1, _, _⟩ :=
            stripStep_lookup_ne nLabels reshape freshName k0 tn0 dep t0 acc hk0
          exact ih _ acc' hnd.2 hmem' (s1.trans hnone) h

/-- An output matching the Percept reshape condition ends up recorded (for
any walk verdict) as the fresh reshaped tensor, with its reshaped shape and
the `new_outs` flag set. -/
theorem stripLoop_reshaped (graph : TFGraph) (nLabels : Nat)
    (ops dtypes : List String) (freshName : String → String) (fuel : Nat)
    (key tname : String) (t : TFTensor)
    (hget : get_tensor_by_name graph tname = some t)
    (hshape : t.shape = [none, some nLabels]) :
    ∀ (l : List (String × String)) (acc acc' : StripAcc),
      (l.map Prod.fst).Nodup →
      (key, tname) ∈ l →
      stripLoop graph nLabels ops dtypes true freshName fuel l acc = some acc' →
      List.lookup key acc'.pruned = some (freshName tname) ∧
      List.lookup key acc'.shapes = some [none, some 1, some 1, t.shape.getLastD none] ∧
      acc'.newOuts = true := by
  intro l
  induction l with
  | nil => intro acc acc' _ hmem; cases hmem
  | cons p rest ih =>
    intro acc acc' hnd hmem h
    obtain ⟨k0, tn0⟩ := p
    rw [stripLoop] at h
    rw [List.map_cons, List.nodup_cons] at hnd
    rcases List.mem_cons.mp hmem with heq | hmem'
    · obtain ⟨hk, ht'⟩ := Prod.mk.injEq key tname k0 tn0 ▸ heq
      subst hk
      subst ht'
      cases hdep0 : tensor_dependency graph ops dtypes fuel tname with
      | none => rw [hdep0] at h; cases h
      | some dep =>
        rw [hdep0] at h
        dsimp only at h
        rw [hget] at h
        dsimp only at h
        obtain ⟨s1, s2, s3⟩ := stripStep_reshape_self nLabels freshName key tname dep t acc hshape
        obtain ⟨h1, h2, h3⟩ := stripLoop_preserves graph nLabels ops dtypes true
          freshName fuel key rest _ acc'
          (fun q hq hq1 => hnd.1 (by rw [← hq1]; exact List.mem_map.mpr ⟨q, hq, rfl⟩)) h
        exact ⟨h1.trans s1, h2.trans s2, h3 s3⟩
    · have hkmem : key ∈ rest.map Prod.fst := List.mem_map_of_mem Prod.fst hmem'
      have hk0 : k0 ≠ key := key_ne_head_of_mem_tail hnd.1 hkmem
      cases hdep0 : tensor_dependency graph ops dtypes fuel tn0 with
      | none => rw [hdep0] at h; cases h
      | some dep =>
        rw [hdep0] at h
        dsimp only at h
        cases hget0 : get_tensor_by_name graph tn0 with
        | none => rw [hget0] at h; cases h
        | some t0 =>
          rw [hget0] at h
          dsimp only at h
          exact ih _ acc' hnd.2 hmem' h

/-- An output whose walk verdict is `False` and which the reshape branch
does not touch is recorded unchanged, with no reshaped shape. -/
theorem stripLoop_kept_plain (graph : TFGraph) (nLabels : Nat)
    (ops dtypes : List String) (reshape : Bool) (freshName : String → String)
    (fuel : Nat) (key tname : String)
    (hdep : tensor_dependency graph ops dtypes fuel tname = some false)
    (hguard : ∀ t, get_tensor_by_name graph tname = some t →
      ¬(t.shape = [none, some nLabels] ∧ reshape = true)) :
    ∀ (l : List (String × String)) (acc acc' : StripAcc),
      (l.map Prod.fst).Nodup →
      (key, tname) ∈ l →
      List.lookup key acc.shapes = none →
      stripLoop graph nLabels ops dtypes reshape freshName fuel l acc = some acc' →
      List.lookup key acc'.pruned = some tname ∧
      List.lookup key acc'.shapes = none := by
  intro l
  induction l with
  | nil => intro acc acc' _ hmem; cases hmem
  | cons p rest ih =>
    intro acc acc' hnd hmem hsh h
    obtain ⟨k0, tn0⟩ := p
    rw [stripLoop] at h
    rw [List.map_cons, List.nodup_cons] at hnd
    rcases List.mem_cons.mp hmem with heq | hmem'
    · obtain ⟨hk, ht'⟩ := Prod.mk.injEq key tname k0 tn0 ▸ heq
      subst hk
      subst ht'
      rw [hdep] at h
      dsimp only at h
      cases hget : get_tensor_by_name graph tname with
      | none => rw [hget] at h; cases h
      | some t =>
        rw [hget] at h
        dsimp only at h
        rw [stripStep_keep_plain _ _ _ _ _ _ _ (hguard t hget)] at h
        obtain ⟨h1, h2, _⟩ := stripLoop_preserves graph nLabels ops dtypes reshape
          freshName fuel key rest _ acc'
          (fun q hq hq1 => hnd.1 (by rw [← hq1]; exact List.mem_map.mpr ⟨q, hq, rfl⟩)) h
        refine ⟨h1.trans ?_, h2.trans hsh⟩
        exact lookup_updateAssoc_self acc.pruned key tname
    · have hkmem : key ∈ rest.map Prod.fst := List.mem_map_of_mem Prod.fst hmem'
      have hk0 : k0 ≠ key := key_ne_head_of_mem_tail hnd.1 hkmem
      cases hdep0 : tensor_dependency graph ops dtypes fuel tn0 with
      | none => rw [hdep0] at h; cases h
      | some dep =>
        rw [hdep0] at h
        dsimp only at h
        cases hget0 : get_tensor_by_name graph tn0 with
        | none => rw [hget0] at h; cases h
        | some t0 =>
          rw [hget0] at h
          dsimp only at h
          obtain ⟨s1, s2, _⟩ :=
            stripStep_lookup_ne nLabels reshape freshName k0 tn0 dep t0 acc hk0
          exact ih _ acc' hnd.2 hmem' (s2.trans hsh) h

theorem writtenOutputs_not_mem (sig : LobeSignature) (acc : StripAcc) (key : String)
    (hnone : List.lookup key acc.pruned = none) :
    key ∉ (writtenOutputs sig acc).map Prod.fst := by
  intro hmem
  rw [writtenOutputs] at hmem
  obtain ⟨q, hq, hfq⟩ := List.mem_map.mp hmem
  obtain ⟨p, hp, hfp⟩ := List.mem_filterMap.mp hq
  by_cases h1 : (List.lookup p.1 acc.pruned).isNone
  · rw [if_pos h1] at hfp; cases hfp
  · rw [if_neg h1] at hfp
    have hq1 : q.1 = p.1 := by
      by_cases h2 : acc.newOuts = true ∧ (List.lookup p.1 acc.shapes).isSome
      · rw [if_pos h2] at hfp; cases hfp; rfl
      · rw [if_neg h2] at hfp; cases hfp; rfl
    rw [hq1] at hfq
    rw [hfq, hnone] at h1
    exact h1 rfl

theorem writtenOutputs_mem_reshaped (sig : LobeSignature) (acc : StripAcc)
    (key pn : String) (v : OutputInfo) (sh : List (Option Nat))
    (hout : (key, v) ∈ sig.outputs)
    (hp : List.lookup key acc.pruned = some pn)
    (hno : acc.newOuts = true)
    (hs : List.lookup key acc.shapes = some sh) :
    (key, OutputInfo.mk pn v.dtype sh) ∈ writtenOutputs sig acc := by
  rw [writtenOutputs]
  refine List.mem_filterMap.mpr ⟨(key, v), hout, ?_⟩
  rw [if_neg (by rw [hp]; simp), if_pos ⟨hno, by rw [hs]; rfl⟩]
  simp [hp, hs]

theorem writtenOutputs_mem_plain (sig : LobeSignature) (acc : StripAcc)
    (key : String) (v : OutputInfo)
    (hout : (key, v) ∈ sig.outputs)
    (hp : (List.lookup key acc.pruned).isSome)
    (hs : List.lookup key acc.shapes = none) :
    (key, v) ∈ writtenOutputs sig acc := by
  rw [writtenOutputs]
  refine List.mem_filterMap.mpr ⟨(key, v), hout, ?_⟩
  rw [if_neg (by simp at hp ⊢; exact hp), if_neg (by rw [hs]; simp)]

/-- C9: the result of `strip_incompatible_ops_dtypes` is invariant under the
letter case of the entries of its `ops` and `dtypes` arguments: both lists
are lowercased on entry and every comparison uses lowercased names, so any
case variants with the same lowercasings give identical effects. -/
theorem strip_case_insensitive (graph : TFGraph) (sig : LobeSignature)
    (ops?₁ ops?₂ dtypes?₁ dtypes?₂ : Option (List String)) (reshape : Bool)
    (freshName : String → String) (fuel : Nat)
    (hops : (ops?₁.getD []).map lowerStr = (ops?₂.getD []).map lowerStr)
    (hdts : (dtypes?₁.getD []).map lowerStr = (dtypes?₂.getD []).map lowerStr) :
    strip_incompatible_ops_dtypes graph sig ops?₁ dtypes?₁ reshape freshName fuel =
      strip_incompatible_ops_dtypes graph sig ops?₂ dtypes?₂ reshape freshName fuel := by
  rw [strip_incompatible_ops_dtypes, strip_incompatible_ops_dtypes, hops, hdts]

/-- Witness for C9: `["STRING"]` and `["string"]` produce identical results
on the concrete model `gExample`. -/
theorem strip_case_insensitive_witness :
    strip_incompatible_ops_dtypes gExample
        ⟨[("Confidences", ⟨"out:0", "float32", [none, some 1]⟩)], ["cat"], ["serve"]⟩
        (some ["ReLU"]) (some ["STRING"]) false (fun _ => "Reshape:0") 3 =
      strip_incompatible_ops_dtypes gExample
        ⟨[("Confidences", ⟨"out:0", "float32", [none, some 1]⟩)], ["cat"], ["serve"]⟩
        (some ["relu"]) (some ["string"]) false (fun _ => "Reshape:0") 3 :=
  strip_case_insensitive gExample
    ⟨[("Confidences", ⟨"out:0", "float32", [none, some 1]⟩)], ["cat"], ["serve"]⟩
    (some ["ReLU"]) (some ["relu"]) (some ["STRING"]) (some ["string"])
    false (fun _ => "Reshape:0") 3 (by decide) (by decide)

/-- C8: when every signature output's declared dtype is in the dtype prune
list, or the dependency walk (with any Percept reshaping) leaves no
surviving output, `strip_incompatible_ops_dtypes` returns early with no
effects: `freeze_graph` is not called and no frozen graph or
`signature_frozen_graph.json` is written. -/
theorem strip_early_return_no_files (graph : TFGraph) (sig : LobeSignature)
    (ops? dtypes? : Option (List String)) (reshape : Bool)
    (freshName : String → String) (fuel : Nat) (tr : List StripEffect)
    (htr : strip_incompatible_ops_dtypes graph sig ops? dtypes? reshape freshName fuel =
      some tr)
    (h : (∀ p ∈ sig.outputs, lowerStr p.2.dtype ∈ (dtypes?.getD []).map lowerStr) ∨
      (∃ acc, stripLoop graph sig.labels.length ((ops?.getD []).map lowerStr)
          ((dtypes?.getD []).map lowerStr) reshape freshName fuel
          (consideredOutputs sig ((dtypes?.getD []).map lowerStr)) ⟨[], [], false⟩ =
            some acc ∧ acc.pruned = [])) :
    tr = [] := by
  rw [strip_incompatible_ops_dtypes] at htr
  rcases h with h | ⟨acc, hloop, hpruned⟩
  · have hempty : consideredOutputs sig ((dtypes?.getD []).map lowerStr) = [] := by
      rw [consideredOutputs, List.filterMap_eq_nil_iff]
      intro p hp
      rw [if_pos (h p hp)]
    rw [hempty] at htr
    simp at htr
    exact htr
  · by_cases hlen : (consideredOutputs sig ((dtypes?.getD []).map lowerStr)).length = 0
    · rw [if_pos hlen] at htr
      cases htr
      rfl
    · rw [if_neg hlen] at htr
      rw [hloop] at htr
      dsimp only at htr
      rw [if_pos (by rw [hpruned]; rfl)] at htr
      cases htr
      rfl

/-- A signature whose only output has the dtype `String`, pruned (up to
case) by the `["string"]` dtype list. -/
def sigAllString : LobeSignature :=
  ⟨[("Prediction", ⟨"pred:0", "String", [none]⟩)], ["cat"], ["serve"]⟩

/-- Witness for C8: a model whose only output has the pruned dtype
`string` runs to an empty effect trace, and the theorem applies to it. -/
theorem strip_early_return_no_files_witness :
    strip_incompatible_ops_dtypes gExample sigAllString none (some ["string"]) false
        (fun _ => "Reshape:0") 3 = some [] ∧ ([] : List StripEffect) = [] :=
  ⟨rfl,
   strip_early_return_no_files gExample sigAllString
     none (some ["string"]) false (fun _ => "Reshape:0") 3 [] (by decide)
     (Or.inl (by decide))⟩

/-- Case analysis of a completed run of `strip_incompatible_ops_dtypes`:
either an early return with no effects (all outputs dtype-pruned, or no
survivor after the loop), or the full effect trace of a successful run. -/
theorem strip_run_cases (graph : TFGraph) (sig : LobeSignature)
    (ops? dtypes? : Option (List String)) (reshape : Bool)
    (freshName : String → String) (fuel : Nat) (tr : List StripEffect)
    (htr : strip_incompatible_ops_dtypes graph sig ops? dtypes? reshape freshName fuel =
      some tr) :
    (consideredOutputs sig ((dtypes?.getD []).map lowerStr) = [] ∧ tr = []) ∨
    ∃ acc, stripLoop graph sig.labels.length ((ops?.getD []).map lowerStr)
        ((dtypes?.getD []).map lowerStr) reshape freshName fuel
        (consideredOutputs sig ((dtypes?.getD []).map lowerStr)) ⟨[], [], false⟩ =
          some acc ∧
      ((acc.pruned = [] ∧ tr = []) ∨
       (acc.pruned ≠ [] ∧
        tr = (if acc.newOuts then [StripEffect.saveReshapedModel] else []) ++
          [StripEffect.freezeGraph (acc.pruned.map (fun p => splitColonHead p.2)),
           StripEffect.writeSignature (writtenOutputs sig acc)] ++
          (if acc.newOuts then [StripEffect.removeTempModel] else []))) := by
  rw [strip_incompatible_ops_dtypes] at htr
  by_cases hlen : (consideredOutputs sig ((dtypes?.getD []).map lowerStr)).length = 0
  · rw [if_pos hlen] at htr
    cases htr
    exact Or.inl ⟨List.length_eq_zero.mp hlen, rfl⟩
  · rw [if_neg hlen] at htr
    cases hloop : stripLoop graph sig.labels.length ((ops?.getD []).map lowerStr)
        ((dtypes?.getD []).map lowerStr) reshape freshName fuel
        (consideredOutputs sig ((dtypes?.getD []).map lowerStr)) ⟨[], [], false⟩ with
    | none => rw [hloop] at htr; cases htr
    | some acc =>
      rw [hloop] at htr
      dsimp only at htr
      by_cases hp : acc.pruned.length = 0
      · rw [if_pos hp] at htr
        cases htr
        exact Or.inr ⟨acc, rfl, Or.inl ⟨List.length_eq_zero.mp hp, rfl⟩⟩
      · rw [if_neg hp] at htr
        cases htr
        refine Or.inr ⟨acc, rfl, Or.inr ⟨?_, rfl⟩⟩
        intro h
        exact hp (by rw [h]; rfl)

/-- The single-output concrete model for the Percept reshape interaction:
the signature's only considered output is produced by a `Softmax` whose
input chain contains a `string` tensor, and its shape matches
`[None, len(classes.Label)]`. -/
def sigPercept : LobeSignature :=
  ⟨[("Confidences", ⟨"out:0", "float32", [none, some 1]⟩)], ["cat"], ["serve"]⟩

/-- C2 counterexample: the claim fails with `reshape_for_percept=True`.  On
`gExample`/`sigPercept`, the only output depends on the pruned dtype
`string` (first conjunct), yet the run freezes the graph with the reshaped
tensor's node name and keeps the output key in the written signature
(second conjunct): the reshape branch re-adds a walk-pruned output. -/
theorem strip_dependent_output_kept_cex :
    tensor_dependency gExample [] ["string"] 3 "out:0" = some true ∧
    strip_incompatible_ops_dtypes gExample sigPercept none (some ["string"]) true
        (fun _ => "Reshape:0") 3 =
      some [StripEffect.saveReshapedModel,
        StripEffect.freezeGraph ["Reshape"],
        StripEffect.writeSignature
          [("Confidences", ⟨"Reshape:0", "float32", [none, some 1, some 1, some 1]⟩)],
        StripEffect.removeTempModel] :=
  ⟨rfl, rfl⟩

/-- C2 (amended): an output that depends on a listed op or dtype is excluded
from the surviving outputs — its key is absent from the written signature
and from the surviving set whose node names are passed to `freeze_graph` —
provided the Percept reshape branch does not touch it, i.e. when
`reshape_for_percept` is `False` or the output tensor's shape is not
`[None, len(classes.Label)]`.  (When `reshape_for_percept=True` and the
shape matches, the output is re-added as a reshaped tensor even though it
depends on pruned ops or dtypes: `strip_dependent_output_kept_cex`.) -/
theorem strip_excludes_dependent_outputs (graph : TFGraph) (sig : LobeSignature)
    (ops? dtypes? : Option (List String)) (reshape : Bool)
    (freshName : String → String) (fuel : Nat) (tr : List StripEffect)
    (key tname : String)
    (hkeys : (sig.outputs.map Prod.fst).Nodup)
    (hmem : (key, tname) ∈ consideredOutputs sig ((dtypes?.getD []).map lowerStr))
    (hdep : tensor_dependency graph ((ops?.getD []).map lowerStr)
      ((dtypes?.getD []).map lowerStr) fuel tname = some true)
    (hguard : ∀ t, get_tensor_by_name graph tname = some t →
      ¬(t.shape = [none, some sig.labels.length] ∧ reshape = true))
    (htr : strip_incompatible_ops_dtypes graph sig ops? dtypes? reshape freshName fuel =
      some tr) :
    (∀ w, StripEffect.writeSignature w ∈ tr → key ∉ w.map Prod.fst) ∧
    (∀ ns, StripEffect.freezeGraph ns ∈ tr →
      ∃ acc, stripLoop graph sig.labels.length ((ops?.getD []).map lowerStr)
          ((dtypes?.getD []).map lowerStr) reshape freshName fuel
          (consideredOutputs sig ((dtypes?.getD []).map lowerStr)) ⟨[], [], false⟩ =
            some acc ∧
        List.lookup key acc.pruned = none ∧
        ns = acc.pruned.map (fun p => splitColonHead p.2)) := by
  rcases strip_run_cases graph sig ops? dtypes? reshape freshName fuel tr htr with
    ⟨_, hnil⟩ | ⟨acc, hloop, hcase⟩
  · subst hnil
    exact ⟨fun w hw => absurd hw (List.not_mem_nil _),
      fun ns hns => absurd hns (List.not_mem_nil _)⟩
  · have hlk : List.lookup key acc.pruned = none :=
      stripLoop_dep_not_kept graph sig.labels.length ((ops?.getD []).map lowerStr)
        ((dtypes?.getD []).map lowerStr) reshape freshName fuel key tname hdep hguard
        (consideredOutputs sig ((dtypes?.getD []).map lowerStr)) ⟨[], [], false⟩ acc
        (consideredOutputs_keys_nodup sig _ hkeys) hmem rfl hloop
    rcases hcase with ⟨_, hnil⟩ | ⟨_, htr'⟩
    · subst hnil
      exact ⟨fun w hw => absurd hw (List.not_mem_nil _),
        fun ns hns => absurd hns (List.not_mem_nil _)⟩
    · subst htr'
      constructor
      · intro w hw
        have hw' : w = writtenOutputs sig acc := by
          cases hno : acc.newOuts <;> rw [hno] at hw <;> simp at hw <;> exact hw
        subst hw'
        exact writtenOutputs_not_mem sig acc key hlk
      · intro ns hns
        have hns' : ns = acc.pruned.map (fun p => splitColonHead p.2) := by
          cases hno : acc.newOuts <;> rw [hno] at hns <;> simp at hns <;> exact hns
        exact ⟨acc, hloop, hlk, hns'⟩

/-- Witness for the amended C2 on a two-output model: the string-dependent
output `Confidences` is excluded (with `reshape_for_percept=False`) while
the clean output `Scores` survives. -/
def gTwo : TFGraph :=
  [("out:0", ⟨"float32", ⟨"Softmax", ["s:0"]⟩, [none, some 1]⟩),
   ("s:0", ⟨"string", ⟨"Const", []⟩, []⟩),
   ("clean:0", ⟨"float32", ⟨"Sigmoid", []⟩, [none, some 4]⟩)]

/-- The two-output signature for `gTwo`. -/
def sigTwo : LobeSignature :=
  ⟨[("Confidences", ⟨"out:0", "float32", [none, some 1]⟩),
    ("Scores", ⟨"clean:0", "float32", [none, some 4]⟩)], ["cat"], ["serve"]⟩

/-- Witness for C2 (amended) at the concrete run of `gTwo`/`sigTwo`. -/
theorem strip_excludes_dependent_outputs_witness :
    (∀ w, StripEffect.writeSignature w ∈
        [StripEffect.freezeGraph ["clean"],
         StripEffect.writeSignature
           [("Scores", OutputInfo.mk "clean:0" "float32" [none, some 4])]] →
      "Confidences" ∉ w.map Prod.fst) ∧
    (∀ ns, StripEffect.freezeGraph ns ∈
        [StripEffect.freezeGraph ["clean"],
         StripEffect.writeSignature
           [("Scores", OutputInfo.mk "clean:0" "float32" [none, some 4])]] →
      ∃ acc, stripLoop gTwo sigTwo.labels.length [] ["string"] false
          (fun _ => "Reshape:0") 3 (consideredOutputs sigTwo ["string"])
          ⟨[], [], false⟩ = some acc ∧
        List.lookup "Confidences" acc.pruned = none ∧
        ns = acc.pruned.map (fun p => splitColonHead p.2)) :=
  strip_excludes_dependent_outputs gTwo sigTwo none (some ["string"]) false
    (fun _ => "Reshape:0") 3
    [StripEffect.freezeGraph ["clean"],
     StripEffect.writeSignature
       [("Scores", OutputInfo.mk "clean:0" "float32" [none, some 4])]]
    "Confidences" "out:0" (by decide) (by decide) (by decide)
    (fun t _ hc => absurd hc.2 (by decide)) rfl

/-- C3: with `reshape_for_percept=True`, every considered output tensor of
shape `[None, n]` (with `n` the number of `classes.Label` entries) is
replaced in the surviving outputs by the fresh reshaped tensor of shape
`[None, 1, 1, n]`: the reshaped node name is among the names passed to
`freeze_graph` and the written signature records the reshaped name and
shape under the output's key.  A considered output whose shape does not
match (and which survives the walk) is written unreshaped. -/
theorem strip_reshapes_matching_outputs (graph : TFGraph) (sig : LobeSignature)
    (ops? dtypes? : Option (List String)) (freshName : String → String)
    (fuel : Nat) (tr : List StripEffect) (key : String) (v : OutputInfo)
    (hkeys : (sig.outputs.map Prod.fst).Nodup)
    (hout : (key, v) ∈ sig.outputs)
    (hdt : lowerStr v.dtype ∉ (dtypes?.getD []).map lowerStr)
    (htr : strip_incompatible_ops_dtypes graph sig ops? dtypes? true freshName fuel =
      some tr) :
    (∀ t, get_tensor_by_name graph v.name = some t →
      t.shape = [none, some sig.labels.length] →
      ∃ ns w, StripEffect.freezeGraph ns ∈ tr ∧ StripEffect.writeSignature w ∈ tr ∧
        (key, OutputInfo.mk (freshName v.name) v.dtype
          [none, some 1, some 1, some sig.labels.length]) ∈ w ∧
        splitColonHead (freshName v.name) ∈ ns) ∧
    (∀ t, get_tensor_by_name graph v.name = some t →
      t.shape ≠ [none, some sig.labels.length] →
      tensor_dependency graph ((ops?.getD []).map lowerStr)
        ((dtypes?.getD []).map lowerStr) fuel v.name = some false →
      ∀ w, StripEffect.writeSignature w ∈ tr → (key, v) ∈ w) := by
  have hmem : (key, v.name) ∈ consideredOutputs sig ((dtypes?.getD []).map lowerStr) :=
    List.mem_filterMap.mpr ⟨(key, v), hout, by rw [if_neg hdt]⟩
  have hnodup := consideredOutputs_keys_nodup sig ((dtypes?.getD []).map lowerStr) hkeys
  rcases strip_run_cases graph sig ops? dtypes? true freshName fuel tr htr with
    ⟨hemp, _⟩ | ⟨acc, hloop, hcase⟩
  · rw [hemp] at hmem
    cases hmem
  · constructor
    · intro t hget hshape
      obtain ⟨hp, hs, hno⟩ := stripLoop_reshaped graph sig.labels.length
        ((ops?.getD []).map lowerStr) ((dtypes?.getD []).map lowerStr) freshName fuel
        key v.name t hget hshape
        (consideredOutputs sig ((dtypes?.getD []).map lowerStr)) ⟨[], [], false⟩ acc
        hnodup hmem hloop
      rcases hcase with ⟨hnil, _⟩ | ⟨_, htr'⟩
      · rw [hnil] at hp
        cases hp
      · subst htr'
        have hlast : t.shape.getLastD none = some sig.labels.length := by
          rw [hshape]
          rfl
        rw [hlast] at hs
        refine ⟨acc.pruned.map (fun p => splitColonHead p.2), writtenOutputs sig acc,
          ?_, ?_, ?_, ?_⟩
        · rw [hno]
          simp
        · rw [hno]
          simp
        · exact writtenOutputs_mem_reshaped sig acc key (freshName v.name) v _ hout hp hno hs
        · exact List.mem_map.mpr ⟨(key, freshName v.name), mem_of_lookup_eq_some hp, rfl⟩
    · intro t hget hshape hdep w hw
      have hguard : ∀ t', get_tensor_by_name graph v.name = some t' →
          ¬(t'.shape = [none, some sig.labels.length] ∧ true = true) := by
        intro t' hget' hc
        rw [hget] at hget'
        cases hget'
        exact hshape hc.1
      obtain ⟨hp, hs⟩ := stripLoop_kept_plain graph sig.labels.length
        ((ops?.getD []).map lowerStr) ((dtypes?.getD []).map lowerStr) true freshName fuel
        key v.name hdep hguard
        (consideredOutputs sig ((dtypes?.getD []).map lowerStr)) ⟨[], [], false⟩ acc
        hnodup hmem rfl hloop
      rcases hcase with ⟨hnil, _⟩ | ⟨_, htr'⟩
      · rw [hnil] at hp
        cases hp
      · subst htr'
        have hw' : w = writtenOutputs sig acc := by
          cases hno : acc.newOuts <;> rw [hno] at hw <;> simp at hw <;> exact hw
        subst hw'
        exact writtenOutputs_mem_plain sig acc key v hout (by rw [hp]; rfl) hs

/-- The effect trace of the `reshape_for_percept=True` run on
`gTwo`/`sigTwo`. -/
def trTwoReshaped : List StripEffect :=
  [StripEffect.saveReshapedModel,
   StripEffect.freezeGraph ["Reshape", "clean"],
   StripEffect.writeSignature
     [("Confidences", ⟨"Reshape:0", "float32", [none, some 1, some 1, some 1]⟩),
      ("Scores", ⟨"clean:0", "float32", [none, some 4]⟩)],
   StripEffect.removeTempModel]

/-- Witness for C3 at the concrete run of `gTwo`/`sigTwo` with
`reshape_for_percept=True`: `Confidences` (shape `[None, 1]`, one label) is
reshaped, `Scores` (shape `[None, 4]`) is written unreshaped. -/
theorem strip_reshapes_matching_outputs_witness :
    (∀ t, get_tensor_by_name gTwo "out:0" = some t →
      t.shape = [none, some sigTwo.labels.length] →
      ∃ ns w, StripEffect.freezeGraph ns ∈ trTwoReshaped ∧
        StripEffect.writeSignature w ∈ trTwoReshaped ∧
        ("Confidences", OutputInfo.mk "Reshape:0" "float32"
          [none, some 1, some 1, some sigTwo.labels.length]) ∈ w ∧
        splitColonHead "Reshape:0" ∈ ns) ∧
    (∀ t, get_tensor_by_name gTwo "out:0" = some t →
      t.shape ≠ [none, some sigTwo.labels.length] →
      tensor_dependency gTwo [] ["string"] 3 "out:0" = some false →
      ∀ w, StripEffect.writeSignature w ∈ trTwoReshaped →
        ("Confidences", OutputInfo.mk "out:0" "float32" [none, some 1]) ∈ w) :=
  strip_reshapes_matching_outputs gTwo sigTwo none (some ["string"])
    (fun _ => "Reshape:0") 3 trTwoReshaped "Confidences"
    (OutputInfo.mk "out:0" "float32" [none, some 1])
    (by decide) (by decide) (by decide) rfl

/-- Split a character list at the last occurrence of `sep`:
`some (before, after)` when `sep` occurs, `none` otherwise. -/
def splitLastChar (sep : Char) : List Char → Option (List Char × List Char)
  | [] => none
  | c :: cs =>
    match splitLastChar sep cs with
    | some (l, r) => some (c :: l, r)
    | none => if c = sep then some ([], cs) else none

/-- Model of `os.path.basename` for the slash-separated relative paths this
repository builds: the part after the last slash. -/
def pathBasename (p : String) : String :=
  match splitLastChar '/' p.data with
  | some (_, r) => String.mk r
  | none => p

/-- Model of `os.path.dirname` for the same paths: the part before the last
slash, `""` when there is none. -/
def pathDirname (p : String) : String :=
  match splitLastChar '/' p.data with
  | some (l, _) => String.mk l
  | none => ""

/-- Model of `os.path.join` for a relative right operand: `join("", b) = b`,
otherwise the two joined with a slash. -/
def pathJoin (a b : String) : String :=
  if a = "" then b else a ++ "/" ++ b

/-- Model of `os.path.abspath` against the working directory `cwd`. -/
def abspath (cwd p : String) : String :=
  if p.data.head? = some '/' then p else pathJoin cwd p

/-- Model of `os.path.splitext` on a file name without directory part: the
extension starts at the last dot that is not in the leading run of dots. -/
def splitext (s : String) : String × String :=
  let leading := s.data.takeWhile (fun c => c = '.')
  let rest := s.data.dropWhile (fun c => c = '.')
  match splitLastChar '.' rest with
  | none => (s, "")
  | some (l, r) => (String.mk (leading ++ l), String.mk ('.' :: r))

theorem splitLastChar_eq_none {sep : Char} {l : List Char} (h : sep ∉ l) :
    splitLastChar sep l = none := by
  induction l with
  | nil => rfl
  | cons c cs ih =>
    rw [splitLastChar, ih (fun hm => h (List.mem_cons_of_mem _ hm))]
    exact if_neg (fun hc => h (List.mem_cons.mpr (Or.inl hc.symm)))

theorem pathBasename_no_slash {s : String} (h : ('/' : Char) ∉ s.data) :
    pathBasename s = s := by
  rw [pathBasename, splitLastChar_eq_none h]

/-- The graph-holding TensorFlow session returned by `load_savedmodel`
(`tf.compat.v1.Session(graph=tf.Graph())` after the SavedModel load). -/
structure TFSession where
  graph : TFGraph

/-- An error surfaced from `load_savedmodel`: the script's own `ValueError`
(the `raise` in `load.py`), or an error propagating out of a framework call
(file I/O, JSON decoding, `tf.compat.v1.saved_model.load`). -/
inductive LoadError where
  | scriptValueError (msg : String)
  | framework (msg : String)
deriving DecidableEq, Repr

/-- The environment `load_savedmodel` calls into: `os.path.realpath`,
`os.path.exists`, the read-and-decode of `signature.json` (whose failures
are framework errors), and the TensorFlow SavedModel load given the
signature tags and the export directory. -/
structure LoaderEnv where
  realpath : String → String
  pathExists : String → Bool
  readSignatureJson : String → Except String LobeSignature
  tfLoad : List String → String → Except String TFSession

/-- The loader `load_savedmodel` of `converter/load.py`: resolve the
directory, raise the script's own `ValueError` when it does not exist,
otherwise read `signature.json` and load the SavedModel, returning the
session and the signature. -/
def load_savedmodel (env : LoaderEnv) (savedmodel_dir : String) :
    Except LoadError (TFSession × LobeSignature) :=
  let model_path := env.realpath savedmodel_dir
  if env.pathExists model_path = false then
    Except.error (LoadError.scriptValueError
      ("Exported model folder doesn't exist " ++ savedmodel_dir))
  else
    match env.readSignatureJson (pathJoin model_path "signature.json") with
    | Except.error e => Except.error (LoadError.framework e)
    | Except.ok signature =>
      match env.tfLoad signature.tags model_path with
      | Except.error e => Except.error (LoadError.framework e)
      | Except.ok session => Except.ok (session, signature)

/-- An environment in which the exported model folder does not exist. -/
def envMissing : LoaderEnv :=
  ⟨fun p => p, fun _ => false, fun _ => Except.error "unread",
   fun _ _ => Except.error "unloaded"⟩

/-- C4 counterexample: the scripts do raise an error of their own before
delegating to the frameworks — `load_savedmodel` raises its `ValueError`
when the exported model folder does not exist, without any framework or
SDK call failing. -/
theorem load_savedmodel_script_error_cex :
    load_savedmodel envMissing "model" =
      Except.error (LoadError.scriptValueError
        "Exported model folder doesn't exist model") := rfl

/-- C4 (amended): apart from the loader's explicit `ValueError` when the
exported model folder does not exist, every error surfaced by
`load_savedmodel` originates from the framework calls: a script-raised
error occurs exactly when the resolved folder does not exist, and carries
exactly that message. -/
theorem load_savedmodel_error_provenance (env : LoaderEnv)
    (savedmodel_dir msg : String) :
    load_savedmodel env savedmodel_dir =
        Except.error (LoadError.scriptValueError msg) ↔
      (env.pathExists (env.realpath savedmodel_dir) = false ∧
        msg = "Exported model folder doesn't exist " ++ savedmodel_dir) := by
  rw [load_savedmodel]
  by_cases hex : env.pathExists (env.realpath savedmodel_dir) = false
  · rw [if_pos hex]
    constructor
    · intro h
      injection h with h1
      injection h1 with h2
      exact ⟨hex, h2.symm⟩
    · rintro ⟨_, hm⟩
      rw [hm]
  · rw [if_neg hex]
    constructor
    · intro h
      cases hr : env.readSignatureJson
          (pathJoin (env.realpath savedmodel_dir) "signature.json") with
      | error e => rw [hr] at h; simp at h
      | ok sig =>
        rw [hr] at h
        dsimp only at h
        cases hl : env.tfLoad sig.tags (env.realpath savedmodel_dir) with
        | error e => rw [hl] at h; simp at h
        | ok s => rw [hl] at h; simp at h
    · rintro ⟨hex', _⟩
      exact absurd hex' hex

/-- Witness for C4 (amended) at the concrete environment `envMissing`. -/
theorem load_savedmodel_error_provenance_witness :
    load_savedmodel envMissing "m" =
        Except.error (LoadError.scriptValueError
          "Exported model folder doesn't exist m") ↔
      (envMissing.pathExists (envMissing.realpath "m") = false ∧
        "Exported model folder doesn't exist m" =
          "Exported model folder doesn't exist " ++ "m") :=
  load_savedmodel_error_provenance envMissing "m"
    "Exported model folder doesn't exist m"

/-- The AzureEyeModule `config.json` content written by
`create_openvino_image_classification_model_config`. -/
structure AzureEyeConfig where
  DomainType : String
  LabelFileName : String
  ModelFileName : String
deriving DecidableEq, Repr

/-- `create_openvino_image_classification_model_config` of
`uploader/azure_percept.py`: the config records the classification domain,
the label file name and the model file's basename; the file is written to
`config.json` in the model's directory.  Returns the written path and
content (the Python function writes the file and returns the path). -/
def create_openvino_image_classification_model_config
    (model_filepath label_filename : String) : String × AzureEyeConfig :=
  (pathJoin (pathDirname model_filepath) "config.json",
   ⟨"classification", label_filename, pathBasename model_filepath⟩)

/-- One entry written into the model package zip: its name inside the
archive and the file it is read from. -/
structure ZipEntry where
  arcname : String
  source : String
deriving DecidableEq, Repr

/-- `zip_openvino_image_classification_model_package`: given the config
file's path and the config read back from it, the zip file path (the model
name with a `.zip` extension, relative to the working directory) and the
four entries written into the archive.  `cwd` feeds the model of
`os.path.abspath`. -/
def zip_openvino_image_classification_model_package
    (cwd config_filepath : String) (config : AzureEyeConfig) :
    String × List ZipEntry :=
  let config_dirname := pathDirname (abspath cwd config_filepath)
  let model_no_ext := (splitext config.ModelFileName).1
  let model_bin_filename := model_no_ext ++ ".bin"
  let zip_filepath := model_no_ext ++ ".zip"
  (zip_filepath,
   [⟨"config.json", config_filepath⟩,
    ⟨config.LabelFileName, pathJoin config_dirname config.LabelFileName⟩,
    ⟨config.ModelFileName, pathJoin config_dirname config.ModelFileName⟩,
    ⟨pathBasename model_bin_filename, pathJoin config_dirname model_bin_filename⟩])

/-- The packaging steps of the uploader script's `__main__`: create the
model's `config.json`, then zip the package; the zip step reads back the
config just written (a JSON round-trip). -/
def package_model (cwd model_filepath : String) :
    (String × AzureEyeConfig) × (String × List ZipEntry) :=
  let cfg := create_openvino_image_classification_model_config model_filepath "labels.txt"
  (cfg, zip_openvino_image_classification_model_package cwd cfg.1 cfg.2)

/-- C6: given a model `.xml` filepath, the pipeline writes `config.json`
containing exactly the classification domain type, the label filename and
the model basename, and produces a zip named after the model with a `.zip`
extension holding exactly four root entries: `config.json`, the label file
named in the config, the model `.xml` file and the sibling `.bin` file
obtained by replacing the `.xml` extension. -/
theorem package_model_spec (cwd model_filepath stem : String)
    (hsplit : splitext (pathBasename model_filepath) = (stem, ".xml"))
    (hslash : ('/' : Char) ∉ stem.data) :
    (package_model cwd model_filepath).1 =
      (pathJoin (pathDirname model_filepath) "config.json",
       ⟨"classification", "labels.txt", pathBasename model_filepath⟩) ∧
    (package_model cwd model_filepath).2.1 = stem ++ ".zip" ∧
    (package_model cwd model_filepath).2.2 =
      [⟨"config.json", pathJoin (pathDirname model_filepath) "config.json"⟩,
       ⟨"labels.txt",
        pathJoin (pathDirname (abspath cwd
          (pathJoin (pathDirname model_filepath) "config.json"))) "labels.txt"⟩,
       ⟨pathBasename model_filepath,
        pathJoin (pathDirname (abspath cwd
          (pathJoin (pathDirname model_filepath) "config.json")))
          (pathBasename model_filepath)⟩,
       ⟨stem ++ ".bin",
        pathJoin (pathDirname (abspath cwd
          (pathJoin (pathDirname model_filepath) "config.json")))
          (stem ++ ".bin")⟩] := by
  have hbin : ('/' : Char) ∉ (stem ++ ".bin").data := by
    intro hm
    rw [String.data_append] at hm
    rcases List.mem_append.mp hm with hm | hm
    · exact hslash hm
    · exact absurd hm (by decide)
  refine ⟨rfl, ?_, ?_⟩
  · rw [package_model, zip_openvino_image_classification_model_package,
      create_openvino_image_classification_model_config]
    dsimp only
    rw [hsplit]
  · rw [package_model, zip_openvino_image_classification_model_package,
      create_openvino_image_classification_model_config]
    dsimp only
    rw [hsplit]
    dsimp only
    rw [pathBasename_no_slash hbin]

/-- Witness for C6 at the concrete model path `models/model.xml`. -/
theorem package_model_spec_witness :
    (package_model "/work" "models/model.xml").1 =
      (pathJoin (pathDirname "models/model.xml") "config.json",
       ⟨"classification", "labels.txt", pathBasename "models/model.xml"⟩) ∧
    (package_model "/work" "models/model.xml").2.1 = "model" ++ ".zip" ∧
    (package_model "/work" "models/model.xml").2.2 =
      [⟨"config.json", pathJoin (pathDirname "models/model.xml") "config.json"⟩,
       ⟨"labels.txt",
        pathJoin (pathDirname (abspath "/work"
          (pathJoin (pathDirname "models/model.xml") "config.json"))) "labels.txt"⟩,
       ⟨pathBasename "models/model.xml",
        pathJoin (pathDirname (abspath "/work"
          (pathJoin (pathDirname "models/model.xml") "config.json")))
          (pathBasename "models/model.xml")⟩,
       ⟨"model" ++ ".bin",
        pathJoin (pathDirname (abspath "/work"
          (pathJoin (pathDirname "models/model.xml") "config.json")))
          ("model" ++ ".bin")⟩] :=
  package_model_spec "/work" "models/model.xml" "model" (by decide) (by decide)

/-- The blob permissions of the Azure storage SDK; the script passes
`BlobPermissions.READ`. -/
inductive BlobPermission where
  | read
  | add
  | create
  | write
  | delete
deriving DecidableEq, Repr

/-- The parameters `upload_model_zip` passes to
`generate_blob_shared_access_signature`: the SAS token grants `permission`
on the named blob of the container and expires at `expiry` (seconds). -/
structure SasToken where
  container : String
  blobName : String
  permission : BlobPermission
  expiry : Nat
deriving DecidableEq, Repr

/-- The parameters `upload_model_zip` passes to `make_blob_url`: the URL
addresses the blob of the container in the storage account over
`protocol`, carrying the SAS token. -/
structure BlobUrl where
  accountName : String
  container : String
  blobName : String
  protocol : String
  sas : SasToken
deriving DecidableEq, Repr

/-- What `upload_model_zip` performs through the `BlockBlobService` SDK:
create the container, upload the zip file as a blob named by the file's
basename, and return the download URL built by `make_blob_url` with a
one-hour read-only SAS.  `now` stands for `datetime.datetime.utcnow()` in
seconds, so `now + 3600` is the one-hour expiry; the storage key only
authenticates the service and shapes no returned value. -/
structure UploadTrace where
  createdContainer : String
  uploadedContainer : String
  uploadedBlobName : String
  uploadedFilePath : String
  url : BlobUrl
deriving DecidableEq, Repr

/-- The uploader `upload_model_zip` of `uploader/azure_percept.py`. -/
def upload_model_zip (now : Nat)
    (model_zip_filepath model_container_name storage_account_name
      storage_account_key : String) : UploadTrace :=
  let model_blob_name := pathBasename model_zip_filepath
  { createdContainer := model_container_name,
    uploadedContainer := model_container_name,
    uploadedBlobName := model_blob_name,
    uploadedFilePath := model_zip_filepath,
    url := { accountName := storage_account_name,
             container := model_container_name,
             blobName := model_blob_name,
             protocol := "https",
             sas := { container := model_container_name,
                      blobName := model_blob_name,
                      permission := BlobPermission.read,
                      expiry := now + 3600 } } }

/-- A device module twin as this script sees it: its desired properties.
The values stored here are the download URLs, the only values the script
writes. -/
structure ModuleTwin where
  desired : List (String × BlobUrl)
deriving DecidableEq, Repr

/-- Modelled from the Azure IoT Hub device-twin semantics invoked through
`update_module_twin`: the patch's desired entries replace the twin's
entries of the same key and are added otherwise. -/
def applyTwinPatch (twin : ModuleTwin) (patch : List (String × BlobUrl)) :
    ModuleTwin :=
  ⟨patch.foldl (fun d kv => updateAssoc d kv.1 kv.2) twin.desired⟩

/-- `update_percept_module_twin` of `uploader/azure_percept.py`: build the
twin patch with `desired = {"ModelZipUrl": model_download_url}` and apply
it to the current module twin through `update_module_twin`, returning the
updated twin. -/
def update_percept_module_twin (twin : ModuleTwin)
    (model_download_url : BlobUrl) : ModuleTwin :=
  applyTwinPatch twin [("ModelZipUrl", model_download_url)]

/-- C7: after the uploader pipeline, the module twin's desired properties
hold `ModelZipUrl` equal to exactly the download URL returned by
`upload_model_zip`, and that URL addresses the blob named after the zip
file in the given container. -/
theorem update_twin_points_at_upload (now : Nat)
    (zip container account key : String) (twin : ModuleTwin) :
    List.lookup "ModelZipUrl"
        (update_percept_module_twin twin
          (upload_model_zip now zip container account key).url).desired =
      some (upload_model_zip now zip container account key).url ∧
    (upload_model_zip now zip container account key).url.blobName =
      pathBasename zip ∧
    (upload_model_zip now zip container account key).url.container = container := by
  refine ⟨?_, rfl, rfl⟩
  rw [update_percept_module_twin, applyTwinPatch]
  dsimp only [List.foldl]
  exact lookup_updateAssoc_self _ _ _

/-- C10: the download URL returned by `upload_model_zip` carries a shared
access signature granting read permission only, expiring exactly one hour
(3600 seconds) after its creation time, uses the https protocol, and
addresses the blob named by the zip file's basename in the given
container. -/
theorem upload_model_zip_url_spec (now : Nat)
    (zip container account key : String) :
    (upload_model_zip now zip container account key).url.sas.permission =
      BlobPermission.read ∧
    (upload_model_zip now zip container account key).url.sas.expiry = now + 3600 ∧
    (upload_model_zip now zip container account key).url.protocol = "https" ∧
    (upload_model_zip now zip container account key).url.blobName =
      pathBasename zip ∧
    (upload_model_zip now zip container account key).url.container = container ∧
    (upload_model_zip now zip container account key).url.sas.blobName =
      pathBasename zip ∧
    (upload_model_zip now zip container account key).url.sas.container = container :=
  ⟨rfl, rfl, rfl, rfl, rfl, rfl, rfl⟩

end LobeConverter
